import Mathlib

set_option maxRecDepth 100000

/-!
Verification development for the USTAR archive engine of tinytar.c
(Ho-Ro/CPM-tools, version 20250512).

The archive engine is embedded shallowly: a file on disk is a `List Nat`
of byte values, a source file is a `SrcFile`, and each C function becomes
a Lean function over these.  Loops that the C source drives by `fread`
over a `FILE*` are modelled by an explicit position into the byte list;
loops whose iteration count is data-dependent take a fuel argument that
is one loop iteration per unit, with the top-level wrappers supplying a
fuel bound that is proved sufficient (`fapLoop_isSome` below), so every
function is total and executable.

Out-of-scope aspects, noted where relevant: the shared global `record`
buffer (its staleness after a short `fread` matters only in the append
scan, where it is modelled exactly; list/extract are only applied to
in-bounds reads here), `stat`/`fopen` failures (per-file skips), and
timestamps (the modification time is a parameter).
-/

namespace TinyTar

/-! ## Octal field codec

`octal_to_long` (tinytar.c, 20250512 version): `while (len--)` walks all
`len` bytes, accumulating `value = value*8 + digit` for bytes in the
range 0x30..0x37 and leaving `value` unchanged for every other byte.  It
does not stop early.  Every call site passes a field that lies fully
inside the 512-byte record, so the out-of-bounds case (list exhausted
before `len` bytes) never arises in the uses below. -/

def octal_to_long_go : List Nat → Nat → Nat → Nat
  | _, 0, v => v
  | [], _ + 1, v => v
  | c :: rest, len + 1, v =>
    octal_to_long_go rest len (if 48 ≤ c ∧ c ≤ 55 then v * 8 + (c - 48) else v)

def octal_to_long (str : List Nat) (len : Nat) : Nat :=
  octal_to_long_go str len 0

/-- The decoder `octal_to_int32` from the 20250502 version of tinytar.c: like
`octal_to_long` but the loop also stops at the first NUL byte
(`i < len && str[i]`), and the accumulator is a 32-bit integer, modelled
by reducing modulo 2^32 (the value is reinterpreted as `int32_t`; all
values arising in this development are below 2^31). -/
def octal_to_int32_go : List Nat → Nat → Nat → Nat
  | _, 0, v => v
  | [], _ + 1, v => v
  | c :: rest, len + 1, v =>
    if c = 0 then v
    else octal_to_int32_go rest len
      (if 48 ≤ c ∧ c ≤ 55 then (v * 8 + (c - 48)) % 4294967296 else v)

def octal_to_int32 (str : List Nat) (len : Nat) : Nat :=
  octal_to_int32_go str len 0

/-- One step of the octal accumulation, used to state what the decoders
compute. -/
def octalStep (v c : Nat) : Nat := if 48 ≤ c ∧ c ≤ 55 then v * 8 + (c - 48) else v

/-- Variant of `octalStep` reduced modulo 2^32. -/
def octalStep32 (v c : Nat) : Nat :=
  if 48 ≤ c ∧ c ≤ 55 then (v * 8 + (c - 48)) % 4294967296 else v

/-- The octal digit characters of `v`, most significant first, empty for 0
(the `%o` digit string before zero padding).  The fuel argument bounds the
number of digits; `v` itself is always enough. -/
def octalCharsAux : Nat → Nat → List Nat
  | 0, _ => []
  | fuel + 1, v => if v = 0 then [] else octalCharsAux fuel (v / 8) ++ [v % 8 + 48]

def octalChars (v : Nat) : List Nat := octalCharsAux v v

/-- Encoder `long_to_octal(out, size, val)`: `snprintf(out, size, "%0*lo", size-1, val)`
followed by `out[size-1] = 0`.  The digit string is zero padded on the left
to `size-1` characters; if `val` needs more digits than that, `snprintf`
truncation keeps the first `size-1` characters.  The final byte is NUL. -/
def long_to_octal (size val : Nat) : List Nat :=
  (List.replicate (size - 1 - (octalChars val).length) 48 ++ octalChars val).take (size - 1)
    ++ [0]

/-- The checksum field written by `write_tar_header`:
`sprintf(header.chksum, "%06o", checksum)` then `chksum[6] = 0`,
`chksum[7] = ' '`.  Every checksum of a 512-byte header is below
8^6 = 262144, so six digits always suffice (the `take 6` is never a real
truncation in this development). -/
def chksumField (v : Nat) : List Nat :=
  (List.replicate (6 - (octalChars v).length) 48 ++ octalChars v).take 6 ++ [0, 32]

/-! ## Header record -/

/-- Model of `strncpy(dst, src, n)` into a zero-initialised field of width `n`,
where `src` is a NUL-terminated string whose bytes (before the NUL) are
`s`: the first `min n s.length` bytes come from `s`, the rest stay 0. -/
def strncpyField (s : List Nat) (n : Nat) : List Nat :=
  s.take n ++ List.replicate (n - s.length) 0

/-- Bytes 0..123 of the header built by `write_tar_header`:
name (100), mode "0000644" (8), uid "0001750" (8), gid "0001750" (8).
0644 octal is 420 decimal; uid = gid = 1000 decimal = 1750 octal. -/
def header_pre124 (name : List Nat) : List Nat :=
  strncpyField name 100 ++ long_to_octal 8 420 ++ long_to_octal 8 1000 ++ long_to_octal 8 1000

/-- Bytes 156..511 of the header built by `write_tar_header`: typeflag 0x30,
linkname (100 zero bytes), magic "ustar  " plus NUL (`strncpy` of the
7-character literal into the 8-byte field), uname "user" (32), gname
"group" (32), devmajor+devminor+prefix+pad all zero (8+8+155+12 = 183). -/
def header_tail : List Nat :=
  48 :: (List.replicate 100 0 ++ [117, 115, 116, 97, 114, 32, 32, 0]
    ++ strncpyField [117, 115, 101, 114] 32 ++ strncpyField [103, 114, 111, 117, 112] 32
    ++ List.replicate 183 0)

/-- The 512 header bytes as summed by the checksum loop in
`write_tar_header`: all fields populated, the chksum field still holding
the eight ASCII spaces written by `memset(header.chksum, ' ', 8)`. -/
def header_with_space_chksum (name : List Nat) (filesize mtime : Nat) : List Nat :=
  header_pre124 name ++ long_to_octal 12 filesize ++ long_to_octal 12 mtime
    ++ List.replicate 8 32 ++ header_tail

/-- The 512 bytes `write_tar_header` writes to the archive: the blank-chksum
header with the checksum (the plain sum of those 512 bytes) encoded into
bytes 148..155. -/
def write_tar_header_bytes (name : List Nat) (filesize mtime : Nat) : List Nat :=
  let h := header_with_space_chksum name filesize mtime
  h.take 148 ++ chksumField h.sum ++ h.drop 156

/-! ## Block primitives -/

/-- Predicate `is_block_empty`: all 512 bytes of the record are zero.  Every use below
applies it to a full 512-byte record. -/
def is_block_empty (block : List Nat) : Bool := block.all (fun b => b == 0)

/-- Predicate `is_valid_tar_header`: `strncmp(header + 257, "ustar", 5) == 0`, i.e.
bytes 257..261 are exactly 0x75 0x73 0x74 0x61 0x72. -/
def is_valid_tar_header (header : List Nat) : Bool :=
  (header.drop 257).take 5 == [117, 115, 116, 97, 114]

/-- The 512-byte record obtained by `fread` at byte offset `pos` of file `f`
(shorter if fewer than 512 bytes remain). -/
def blockAt (f : List Nat) (pos : Nat) : List Nat := (f.drop pos).take 512

/-- Content-skip distance computed from a header record:
`((filesize + 511) / 512) * 512` with `filesize` decoded from bytes
124..135. -/
def skipOf (hdr : List Nat) : Nat :=
  ((octal_to_long ((hdr.drop 124).take 12) 12 + 511) / 512) * 512

/-! ## Archive writer -/

/-- One source file handed to create/append: its (NUL-free) name bytes, its
content bytes, and its modification time. -/
structure SrcFile where
  name : List Nat
  content : List Nat
  mtime : Nat

/-- The block-writing loop of `write_file_content`: while `remaining > 0`,
read up to 512 bytes, zero-pad the record to 512, write it, and subtract
the bytes read.  One fuel unit per loop iteration; each iteration consumes
at least one byte of `c` whenever `remaining` equals the bytes left in `c`
(the invariant of the only call site), so `c.length + 1` fuel suffices. -/
def wfcLoop : Nat → List Nat → Nat → List Nat
  | 0, _, _ => []
  | fuel + 1, c, remaining =>
    if remaining = 0 then []
    else
      (c.take 512 ++ List.replicate (512 - (c.take 512).length) 0)
        ++ wfcLoop fuel (c.drop 512) (remaining - (c.take 512).length)

/-- Semantics of `write_file_content(out, in, filesize)` where `in` holds exactly the
bytes `c` and `filesize = c.length`: the content padded with zero bytes to
a multiple of 512. -/
def write_file_content (c : List Nat) : List Nat := wfcLoop (c.length + 1) c c.length

/-- Semantics of `write_file`: header followed by padded content.  The unopenable /
not-regular-file skip paths are not modelled; `files` lists the accepted
sources. -/
def write_file_bytes (fl : SrcFile) : List Nat :=
  write_tar_header_bytes fl.name fl.content.length fl.mtime ++ write_file_content fl.content

/-- The bytes written for a list of accepted source files, in order. -/
def createBody (files : List SrcFile) : List Nat :=
  (files.map write_file_bytes).flatten

/-- The two all-zero 512-byte blocks written after the entries. -/
def terminator : List Nat := List.replicate 512 0 ++ List.replicate 512 0

/-! ## Append scan -/

/-- The scanning loop of `find_append_position`, one fuel unit per
iteration of the C `while (fread(...) == RECORD_SIZE)` loop.
`pos` is the file offset of the `fread` at the top of the loop.

* Short first read: the loop exits and `ftell` is returned — the end of
  the file if `pos` was inside it, `pos` itself if a content skip seeked
  past EOF (`max pos f.length` covers both).
* Empty block: its offset `zpos = pos` is the terminator candidate; the
  next block is read.  If that read is short (fewer than 512 bytes left),
  the `k` bytes read overwrite the first `k` bytes of the still-all-zero
  record and `fseek(-512, SEEK_CUR)` moves to `f.length - 512`; the merged
  record then falls through to magic validation, and on success the
  content skip is taken from `f.length - 512`.  If the next block is full
  and empty, `zpos` is returned.  If it is full and non-empty, the scan
  rewinds one block (to `pos + 512`), falls through to validating that
  block, and skips its content from `pos + 512`.
* Non-empty block: invalid magic returns −1, otherwise the decoded
  content length, rounded up to blocks, is skipped.

`none` means fuel ran out; `fapLoop_isSome` below shows the wrapper's fuel
is never exhausted (each continued iteration advances by at least 262
bytes), so the C loop, which this mirrors, terminates. -/
def fapLoop : Nat → List Nat → Nat → Option Int
  | 0, _, _ => none
  | fuel + 1, f, pos =>
    if f.length < pos + 512 then some ((max pos f.length : Nat) : Int)
    else if is_block_empty (blockAt f pos) then
      if f.length < pos + 1024 then
        if is_valid_tar_header
            ((f.drop (pos + 512)).take 512
              ++ List.replicate (512 - (f.length - (pos + 512))) 0) then
          fapLoop fuel f
            (f.length - 512 + skipOf
              ((f.drop (pos + 512)).take 512
                ++ List.replicate (512 - (f.length - (pos + 512))) 0))
        else some (-1)
      else if is_block_empty (blockAt f (pos + 512)) then some ((pos : Nat) : Int)
      else if is_valid_tar_header (blockAt f (pos + 512)) then
        fapLoop fuel f (pos + 512 + skipOf (blockAt f (pos + 512)))
      else some (-1)
    else if is_valid_tar_header (blockAt f pos) then
      fapLoop fuel f (pos + 512 + skipOf (blockAt f pos))
    else some (-1)

/-- Fuel bound for `fapLoop`; `fapLoop_isSome` proves it sufficient. -/
def fapFuel (f : List Nat) : Nat := f.length + 1025

/-- Function `find_append_position`: scan from offset 0.  The default −1 of `getD`
is never taken (`fapLoop_isSome`). -/
def find_append_position (f : List Nat) : Int :=
  (fapLoop (fapFuel f) f 0).getD (-1)

/-- Writing `new` into file contents `orig` at offset `p` without
truncation (`fopen` mode "r+b"): bytes before `p` survive, a seek past EOF
zero-fills the gap, bytes of `orig` beyond the written region survive. -/
def overwriteAt (orig new : List Nat) (p : Nat) : List Nat :=
  orig.take p ++ List.replicate (p - orig.length) 0 ++ new ++ orig.drop (p + new.length)

/-- Semantics of `mode_create_append(append, ...)` for an openable archive, returning
the exit status and the final on-disk bytes of the archive.  Create
truncates and writes body + terminator.  Append first runs
`find_append_position`; a negative result reports a corrupt archive and
exits 1 with the archive untouched (nothing has been written at that
point), otherwise the new entries and a fresh terminator are written at
the found offset. -/
def mode_create_append (append : Bool) (archive : List Nat) (files : List SrcFile) :
    Nat × List Nat :=
  if append then
    if find_append_position archive < 0 then (1, archive)
    else (0, overwriteAt archive (createBody files ++ terminator)
      (find_append_position archive).toNat)
  else (0, createBody files ++ terminator)

/-- The archive produced by `tinytar -cf archive files...`. -/
def mode_create_bytes (files : List SrcFile) : List Nat :=
  (mode_create_append false [] files).2

/-! ## Archive reader (list / extract) -/

/-- ASCII `isprint` on a byte read from the unsigned record buffer. -/
def isprintByte (b : Nat) : Bool := 32 ≤ b && b ≤ 126

/-- Filename decoding shared by list and extract: copy up to 100 bytes,
stop at the first NUL, replace non-printable bytes by 0x3F. -/
def decode_name (hdr : List Nat) : List Nat :=
  ((hdr.take 100).takeWhile (fun b => b != 0)).map (fun b => if isprintByte b then b else 63)

/-- The loop of `mode_list`: returns the (name, size) lines printed, and
whether the invalid-magic format error was reported.  A short read or an
empty block ends the listing normally. -/
def listLoop : Nat → List Nat → Nat → List (List Nat × Nat) × Bool
  | 0, _, _ => ([], false)
  | fuel + 1, f, pos =>
    if f.length < pos + 512 then ([], false)
    else if is_block_empty (blockAt f pos) then ([], false)
    else if is_valid_tar_header (blockAt f pos) = false then ([], true)
    else
      ((decode_name (blockAt f pos),
          octal_to_long (((blockAt f pos).drop 124).take 12) 12)
        :: (listLoop fuel f (pos + 512
            + ((octal_to_long (((blockAt f pos).drop 124).take 12) 12 + 511) / 512)
              * 512)).1,
        (listLoop fuel f (pos + 512
            + ((octal_to_long (((blockAt f pos).drop 124).take 12) 12 + 511) / 512)
              * 512)).2)

/-- Semantics of `mode_list` on an openable archive.  One fuel unit per entry; the loop
advances at least 512 bytes per entry, so `f.length + 512` suffices for
any input reachable here. -/
def mode_list_run (f : List Nat) : List (List Nat × Nat) × Bool :=
  listLoop (f.length + 512) f 0

/-- Running `tinytar -tf archive` for an existing readable archive: `mode_list`
returns after its loop (also after reporting a format error), and `main`
returns 0. -/
def run_list (f : List Nat) : Nat × (List (List Nat × Nat) × Bool) :=
  (0, mode_list_run f)

/-- The extract copy loop: while `remaining > 0`, read a 512-byte record
and write `min(remaining, 512)` of its bytes.  One fuel unit per
iteration; `remaining` fuel suffices since each iteration consumes at
least one byte.  (The unchecked short-read case, where the C record
keeps stale bytes, is not reached by the in-bounds archives used below.) -/
def copyLoop : Nat → List Nat → Nat → Nat → List Nat
  | 0, _, _, _ => []
  | fuel + 1, f, pos, remaining =>
    if remaining = 0 then []
    else
      ((f.drop pos).take 512).take (min remaining 512)
        ++ copyLoop fuel f (pos + 512) (remaining - min remaining 512)

def copy_content (f : List Nat) (pos remaining : Nat) : List Nat :=
  copyLoop remaining f pos remaining

/-- The loop of `mode_extract`: the (decoded filename, extracted bytes)
pairs written out, plus the format-error flag, mirroring `listLoop`.  The
per-entry `fopen` of the output is assumed to succeed (the skip path is
not modelled). -/
def extractLoop : Nat → List Nat → Nat → List (List Nat × List Nat) × Bool
  | 0, _, _ => ([], false)
  | fuel + 1, f, pos =>
    if f.length < pos + 512 then ([], false)
    else if is_block_empty (blockAt f pos) then ([], false)
    else if is_valid_tar_header (blockAt f pos) = false then ([], true)
    else
      ((decode_name (blockAt f pos),
          copy_content f (pos + 512)
            (octal_to_long (((blockAt f pos).drop 124).take 12) 12))
        :: (extractLoop fuel f (pos + 512
            + ((octal_to_long (((blockAt f pos).drop 124).take 12) 12 + 511) / 512)
              * 512)).1,
        (extractLoop fuel f (pos + 512
            + ((octal_to_long (((blockAt f pos).drop 124).take 12) 12 + 511) / 512)
              * 512)).2)

def mode_extract_run (f : List Nat) : List (List Nat × List Nat) × Bool :=
  extractLoop (f.length + 512) f 0

/-- Running `tinytar -xf archive` for an existing readable archive: exit status 0
(`mode_extract` returns after its loop, also after a format error). -/
def run_extract (f : List Nat) : Nat × (List (List Nat × List Nat) × Bool) :=
  (0, mode_extract_run f)

/-! ## Specification-side comparator definitions

These two definitions follow the words of claims under test, not the
source; each is compared against the corresponding source embedding. -/

/-- The decoder claim C7 describes: accumulate `value*8 + digit` left to
right over bytes in 0x30..0x37 and STOP at the first byte that is not an
octal digit (or after `len` bytes).  The source decoders do not stop. -/
def octal_decode_spec_stop (str : List Nat) (len : Nat) : Nat :=
  ((str.take len).takeWhile (fun c => 48 ≤ c && c ≤ 55)).foldl octalStep 0

/-- The append scan claim C3 describes: identical to `fapLoop` except
that after a false alarm (isolated zero block at `z`, non-empty block at
`z + 512`) the scan proceeds as if restarted at `z`: the block at
`z + 512` is validated as a header and its content is skipped starting
after that header, so scanning continues at `z + 1024 + skip`. -/
def fapRestartLoop : Nat → List Nat → Nat → Option Int
  | 0, _, _ => none
  | fuel + 1, f, pos =>
    if f.length < pos + 512 then some ((max pos f.length : Nat) : Int)
    else if is_block_empty (blockAt f pos) then
      if f.length < pos + 1024 then
        if is_valid_tar_header
            ((f.drop (pos + 512)).take 512
              ++ List.replicate (512 - (f.length - (pos + 512))) 0) then
          fapRestartLoop fuel f
            (f.length - 512 + skipOf
              ((f.drop (pos + 512)).take 512
                ++ List.replicate (512 - (f.length - (pos + 512))) 0))
        else some (-1)
      else if is_block_empty (blockAt f (pos + 512)) then some ((pos : Nat) : Int)
      else if is_valid_tar_header (blockAt f (pos + 512)) then
        fapRestartLoop fuel f (pos + 1024 + skipOf (blockAt f (pos + 512)))
      else some (-1)
    else if is_valid_tar_header (blockAt f pos) then
      fapRestartLoop fuel f (pos + 512 + skipOf (blockAt f pos))
    else some (-1)

/-- Top level of the claim-described scanner. -/
def find_append_position_restart (f : List Nat) : Int :=
  (fapRestartLoop (fapFuel f) f 0).getD (-1)

/-- The per-file conditions under which the reader lemmas recover a file
exactly: name of at most 100 printable bytes, content size representable
in the 11-digit octal size field. -/
def GoodFile (fl : SrcFile) : Prop :=
  fl.name.length ≤ 100 ∧ (∀ b ∈ fl.name, 32 ≤ b ∧ b ≤ 126) ∧ fl.content.length < 8 ^ 11

instance (fl : SrcFile) : Decidable (GoodFile fl) := by
  unfold GoodFile
  infer_instance

/-- Archive exhibiting the false-alarm behaviour: an isolated zero block,
then a valid header announcing 512 content bytes, then that content block
(bytes 0x41, not a valid header). -/
def A3ex : List Nat :=
  List.replicate 512 0 ++ write_tar_header_bytes [99] 512 0 ++ List.replicate 512 65

/-! ## Reachable states of the append scan

`Reaches f k pos`: after `k` iterations of the `find_append_position`
loop on archive `f`, the `fread` at the top of the loop happens at byte
offset `pos`.  The three step constructors are exactly the three ways the
loop continues. -/

inductive Reaches (f : List Nat) : Nat → Nat → Prop
  | start : Reaches f 0 0
  | header (k pos : Nat) : Reaches f k pos → pos + 512 ≤ f.length →
      is_block_empty (blockAt f pos) = false →
      is_valid_tar_header (blockAt f pos) = true →
      Reaches f (k + 1) (pos + 512 + skipOf (blockAt f pos))
  | falseAlarm (k pos : Nat) : Reaches f k pos → pos + 1024 ≤ f.length →
      is_block_empty (blockAt f pos) = true →
      is_block_empty (blockAt f (pos + 512)) = false →
      is_valid_tar_header (blockAt f (pos + 512)) = true →
      Reaches f (k + 1) (pos + 512 + skipOf (blockAt f (pos + 512)))
  | shortSecond (k pos : Nat) : Reaches f k pos → pos + 512 ≤ f.length →
      f.length < pos + 1024 →
      is_block_empty (blockAt f pos) = true →
      is_valid_tar_header
        ((f.drop (pos + 512)).take 512
          ++ List.replicate (512 - (f.length - (pos + 512))) 0) = true →
      Reaches f (k + 1)
        (f.length - 512 + skipOf
          ((f.drop (pos + 512)).take 512
            ++ List.replicate (512 - (f.length - (pos + 512))) 0))

/-! # Lemmas -/

/-! ## Octal codec -/

theorem octal_to_long_go_eq_foldl :
    ∀ (str : List Nat) (len v : Nat),
      octal_to_long_go str len v = (str.take len).foldl octalStep v := by
  intro str
  induction str with
  | nil => intro len v; cases len <;> rfl
  | cons c rest ih =>
    intro len v
    cases len with
    | zero => rfl
    | succ n => simpa [octal_to_long_go, octalStep, List.take_succ_cons] using ih n (octalStep v c)

theorem octal_to_long_eq_foldl (str : List Nat) (len : Nat) :
    octal_to_long str len = (str.take len).foldl octalStep 0 :=
  octal_to_long_go_eq_foldl str len 0

theorem octal_to_int32_go_eq_foldl :
    ∀ (str : List Nat) (len v : Nat),
      octal_to_int32_go str len v =
        ((str.take len).takeWhile (fun b => b != 0)).foldl octalStep32 v := by
  intro str
  induction str with
  | nil => intro len v; cases len <;> rfl
  | cons c rest ih =>
    intro len v
    cases len with
    | zero => rfl
    | succ n =>
      by_cases hc : c = 0
      · subst hc; rfl
      · simp only [octal_to_int32_go, hc, if_false, List.take_succ_cons, List.takeWhile]
        have hcb : (c != 0) = true := by simpa using hc
        simp [hcb, ih n, octalStep32]

theorem octal_to_int32_eq_foldl (str : List Nat) (len : Nat) :
    octal_to_int32 str len =
      ((str.take len).takeWhile (fun b => b != 0)).foldl octalStep32 0 :=
  octal_to_int32_go_eq_foldl str len 0

theorem foldl_octalStep_replicate48 :
    ∀ (k v : Nat), (List.replicate k 48).foldl octalStep v = v * 8 ^ k := by
  intro k
  induction k with
  | zero => simp
  | succ n ih =>
    intro v
    rw [List.replicate_succ, List.foldl_cons, ih]
    simp [octalStep, pow_succ]
    ring

theorem octalCharsAux_mem :
    ∀ (fuel v c : Nat), c ∈ octalCharsAux fuel v → 48 ≤ c ∧ c ≤ 55 := by
  intro fuel
  induction fuel with
  | zero => intro v c h; simp [octalCharsAux] at h
  | succ n ih =>
    intro v c h
    by_cases hv : v = 0
    · simp [octalCharsAux, hv] at h
    · simp only [octalCharsAux, hv, if_false, List.mem_append, List.mem_singleton] at h
      rcases h with h | h
      · exact ih _ _ h
      · have : v % 8 < 8 := Nat.mod_lt _ (by norm_num)
        omega

theorem octalCharsAux_length :
    ∀ (fuel v k : Nat), v < 8 ^ k → (octalCharsAux fuel v).length ≤ k := by
  intro fuel
  induction fuel with
  | zero => intro v k _; simp [octalCharsAux]
  | succ n ih =>
    intro v k hv
    by_cases h0 : v = 0
    · simp [octalCharsAux, h0]
    · have hk : k ≠ 0 := by
        rintro rfl
        simp at hv
        omega
      obtain ⟨m, rfl⟩ := Nat.exists_eq_succ_of_ne_zero hk
      have hdiv : v / 8 < 8 ^ m := by
        rw [Nat.div_lt_iff_lt_mul (by norm_num)]
        calc v < 8 ^ (m + 1) := hv
          _ = 8 ^ m * 8 := by rw [pow_succ]
      simp only [octalCharsAux, h0, if_false, List.length_append, List.length_singleton]
      have := ih (v / 8) m hdiv
      omega

theorem octalCharsAux_foldl :
    ∀ (fuel v a : Nat), v < 8 ^ fuel →
      List.foldl octalStep a (octalCharsAux fuel v) =
        a * 8 ^ (octalCharsAux fuel v).length + v := by
  intro fuel
  induction fuel with
  | zero =>
    intro v a hv
    interval_cases v
    simp [octalCharsAux]
  | succ n ih =>
    intro v a hv
    by_cases h0 : v = 0
    · simp [octalCharsAux, h0]
    · have hdiv : v / 8 < 8 ^ n := by
        rw [Nat.div_lt_iff_lt_mul (by norm_num)]
        calc v < 8 ^ (n + 1) := hv
          _ = 8 ^ n * 8 := by rw [pow_succ]
      have hmod : v % 8 < 8 := Nat.mod_lt _ (by norm_num)
      simp only [octalCharsAux, h0, if_false, List.foldl_append, List.foldl_cons,
        List.foldl_nil, List.length_append, List.length_singleton]
      rw [ih (v / 8) a hdiv]
      show octalStep (a * 8 ^ (octalCharsAux n (v / 8)).length + v / 8) (v % 8 + 48) = _
      have harg : 48 ≤ v % 8 + 48 ∧ v % 8 + 48 ≤ 55 := by omega
      simp only [octalStep, harg, and_self, if_true, pow_succ]
      have := Nat.div_add_mod v 8
      ring_nf
      omega

theorem octalChars_mem (v c : Nat) (h : c ∈ octalChars v) : 48 ≤ c ∧ c ≤ 55 :=
  octalCharsAux_mem v v c h

theorem octalChars_length (v k : Nat) (h : v < 8 ^ k) : (octalChars v).length ≤ k :=
  octalCharsAux_length v v k h

theorem octalChars_foldl (v a : Nat) :
    List.foldl octalStep a (octalChars v) = a * 8 ^ (octalChars v).length + v :=
  octalCharsAux_foldl v v a (Nat.lt_pow_self (by norm_num) v)

theorem octalStep_skip {c : Nat} (h : c < 48) (v : Nat) : octalStep v c = v := by
  have hn : ¬(48 ≤ c ∧ c ≤ 55) := by omega
  simp [octalStep, hn]

/-- Decoding the 12-byte size/mtime field written by `long_to_octal`
recovers the value, provided it fits in the 11 digit slots. -/
theorem decode_long_to_octal12 (v : Nat) (hv : v < 8 ^ 11) :
    octal_to_long (long_to_octal 12 v) 12 = v := by
  have hL : (octalChars v).length ≤ 11 := octalChars_length v 11 hv
  have hbase : (List.replicate (11 - (octalChars v).length) 48 ++ octalChars v).length = 11 := by
    simp only [List.length_append, List.length_replicate]
    omega
  have hfield : long_to_octal 12 v =
      List.replicate (11 - (octalChars v).length) 48 ++ octalChars v ++ [0] := by
    show (List.replicate (12 - 1 - (octalChars v).length) 48 ++ octalChars v).take (12 - 1)
        ++ [0] = _
    rw [show (12 : Nat) - 1 = 11 from rfl]
    rw [List.take_of_length_le (le_of_eq hbase)]
  rw [octal_to_long_eq_foldl, hfield]
  have hlen : (List.replicate (11 - (octalChars v).length) 48 ++ octalChars v ++ [0]).length
      = 12 := by
    simp only [List.length_append, List.length_replicate, List.length_singleton]
    omega
  rw [List.take_of_length_le (le_of_eq hlen)]
  rw [List.foldl_append, List.foldl_append, foldl_octalStep_replicate48,
    octalChars_foldl]
  simp only [List.foldl_cons, List.foldl_nil]
  rw [octalStep_skip (by norm_num)]
  ring

/-- Decoding the checksum field (six digits, NUL, space) recovers the
checksum, provided it fits in six octal digits. -/
theorem decode_chksumField (v : Nat) (hv : v < 8 ^ 6) :
    octal_to_long (chksumField v) 8 = v := by
  have hL : (octalChars v).length ≤ 6 := octalChars_length v 6 hv
  have hbase : (List.replicate (6 - (octalChars v).length) 48 ++ octalChars v).length = 6 := by
    simp only [List.length_append, List.length_replicate]
    omega
  have hfield : chksumField v =
      List.replicate (6 - (octalChars v).length) 48 ++ octalChars v ++ [0, 32] := by
    show (List.replicate (6 - (octalChars v).length) 48 ++ octalChars v).take 6
        ++ [0, 32] = _
    rw [List.take_of_length_le (le_of_eq hbase)]
  rw [octal_to_long_eq_foldl, hfield]
  have hlen : (List.replicate (6 - (octalChars v).length) 48 ++ octalChars v
      ++ [0, 32]).length = 8 := by
    simp only [List.length_append, List.length_replicate, List.length_cons,
      List.length_nil]
    omega
  rw [List.take_of_length_le (le_of_eq hlen)]
  rw [List.foldl_append, List.foldl_append, foldl_octalStep_replicate48,
    octalChars_foldl]
  simp only [List.foldl_cons, List.foldl_nil]
  rw [octalStep_skip (by norm_num), octalStep_skip (by norm_num)]
  ring

/-! ## Field and header lengths -/

theorem strncpyField_length (s : List Nat) (n : Nat) : (strncpyField s n).length = n := by
  simp only [strncpyField, List.length_append, List.length_take, List.length_replicate]
  omega

theorem long_to_octal_length (s v : Nat) (hs : 1 ≤ s) : (long_to_octal s v).length = s := by
  simp only [long_to_octal, List.length_append, List.length_take, List.length_replicate,
    List.length_singleton]
  omega

theorem chksumField_length (v : Nat) : (chksumField v).length = 8 := by
  simp only [chksumField, List.length_append, List.length_take, List.length_replicate,
    List.length_cons, List.length_nil]
  omega

theorem header_pre124_length (name : List Nat) : (header_pre124 name).length = 124 := by
  simp only [header_pre124, List.length_append, strncpyField_length,
    long_to_octal_length 8 420 (by norm_num), long_to_octal_length 8 1000 (by norm_num)]

theorem header_tail_length : header_tail.length = 356 := by
  simp only [header_tail, List.length_cons, List.length_append, List.length_replicate,
    strncpyField_length]
  norm_num

theorem header_with_space_chksum_length (name : List Nat) (filesize mtime : Nat) :
    (header_with_space_chksum name filesize mtime).length = 512 := by
  simp only [header_with_space_chksum, List.length_append, header_pre124_length,
    long_to_octal_length 12 filesize (by norm_num), long_to_octal_length 12 mtime (by norm_num),
    List.length_replicate, header_tail_length]

theorem write_tar_header_bytes_length (name : List Nat) (filesize mtime : Nat) :
    (write_tar_header_bytes name filesize mtime).length = 512 := by
  simp only [write_tar_header_bytes, List.length_append, List.length_take,
    List.length_drop, chksumField_length, header_with_space_chksum_length]
  omega

/-! ## Header slicing facts -/

theorem hwsc_drop124 (name : List Nat) (filesize mtime : Nat) :
    (header_with_space_chksum name filesize mtime).drop 124 =
      long_to_octal 12 filesize
        ++ (long_to_octal 12 mtime ++ (List.replicate 8 32 ++ header_tail)) := by
  rw [header_with_space_chksum]
  simp only [List.append_assoc]
  rw [List.drop_left' (header_pre124_length name)]

theorem hwsc_size_field (name : List Nat) (filesize mtime : Nat) :
    ((header_with_space_chksum name filesize mtime).drop 124).take 12 =
      long_to_octal 12 filesize := by
  rw [hwsc_drop124, List.take_left' (long_to_octal_length 12 filesize (by norm_num))]

theorem hwsc_drop148 (name : List Nat) (filesize mtime : Nat) :
    (header_with_space_chksum name filesize mtime).drop 148 =
      List.replicate 8 32 ++ header_tail := by
  have h1 : (header_with_space_chksum name filesize mtime).drop 148 =
      ((header_with_space_chksum name filesize mtime).drop 124).drop 24 := by
    rw [List.drop_drop]
  rw [h1, hwsc_drop124]
  rw [show (24 : Nat) = 12 + 12 from rfl, ← List.drop_drop]
  rw [List.drop_left' (long_to_octal_length 12 filesize (by norm_num)),
    List.drop_left' (long_to_octal_length 12 mtime (by norm_num))]

theorem hwsc_drop156 (name : List Nat) (filesize mtime : Nat) :
    (header_with_space_chksum name filesize mtime).drop 156 = header_tail := by
  have h1 : (header_with_space_chksum name filesize mtime).drop 156 =
      ((header_with_space_chksum name filesize mtime).drop 148).drop 8 := by
    rw [List.drop_drop]
  rw [h1, hwsc_drop148, List.drop_left' (List.length_replicate 8 32)]

theorem hwsc_take100 (name : List Nat) (filesize mtime : Nat) :
    (header_with_space_chksum name filesize mtime).take 100 = strncpyField name 100 := by
  rw [header_with_space_chksum, header_pre124]
  simp only [List.append_assoc]
  exact List.take_left' (strncpyField_length name 100)

theorem hwsc_decomp (name : List Nat) (filesize mtime : Nat) :
    (header_with_space_chksum name filesize mtime).take 148 ++ List.replicate 8 32
        ++ (header_with_space_chksum name filesize mtime).drop 156 =
      header_with_space_chksum name filesize mtime := by
  conv_rhs => rw [← List.take_append_drop 148 (header_with_space_chksum name filesize mtime)]
  rw [hwsc_drop148, hwsc_drop156, List.append_assoc]

/-! Facts about the final header bytes. -/

theorem wthb_eq (name : List Nat) (filesize mtime : Nat) :
    write_tar_header_bytes name filesize mtime =
      (header_with_space_chksum name filesize mtime).take 148
        ++ (chksumField (header_with_space_chksum name filesize mtime).sum
          ++ (header_with_space_chksum name filesize mtime).drop 156) := by
  rw [write_tar_header_bytes, List.append_assoc]

theorem wthb_take148_length (name : List Nat) (filesize mtime : Nat) :
    ((header_with_space_chksum name filesize mtime).take 148).length = 148 := by
  rw [List.length_take, header_with_space_chksum_length]
  omega

theorem wthb_drop148 (name : List Nat) (filesize mtime : Nat) :
    (write_tar_header_bytes name filesize mtime).drop 148 =
      chksumField (header_with_space_chksum name filesize mtime).sum
        ++ (header_with_space_chksum name filesize mtime).drop 156 := by
  rw [wthb_eq, List.drop_left' (wthb_take148_length name filesize mtime)]

theorem wthb_chk_field (name : List Nat) (filesize mtime : Nat) :
    ((write_tar_header_bytes name filesize mtime).drop 148).take 8 =
      chksumField (header_with_space_chksum name filesize mtime).sum := by
  rw [wthb_drop148,
    List.take_left' (chksumField_length (header_with_space_chksum name filesize mtime).sum)]

theorem wthb_take148 (name : List Nat) (filesize mtime : Nat) :
    (write_tar_header_bytes name filesize mtime).take 148 =
      (header_with_space_chksum name filesize mtime).take 148 := by
  rw [wthb_eq, List.take_append_eq_append_take, wthb_take148_length]
  norm_num [List.take_take]

theorem wthb_take100 (name : List Nat) (filesize mtime : Nat) :
    (write_tar_header_bytes name filesize mtime).take 100 =
      strncpyField name 100 := by
  have h1 : (write_tar_header_bytes name filesize mtime).take 100 =
      ((write_tar_header_bytes name filesize mtime).take 148).take 100 := by
    rw [List.take_take]
    norm_num
  rw [h1, wthb_take148, List.take_take]
  norm_num
  exact hwsc_take100 name filesize mtime

theorem wthb_drop156 (name : List Nat) (filesize mtime : Nat) :
    (write_tar_header_bytes name filesize mtime).drop 156 =
      (header_with_space_chksum name filesize mtime).drop 156 := by
  rw [write_tar_header_bytes]
  show ((header_with_space_chksum name filesize mtime).take 148
      ++ chksumField (header_with_space_chksum name filesize mtime).sum
      ++ (header_with_space_chksum name filesize mtime).drop 156).drop 156 = _
  rw [List.append_assoc]
  have hlen : ((header_with_space_chksum name filesize mtime).take 148
      ++ chksumField (header_with_space_chksum name filesize mtime).sum).length = 156 := by
    rw [List.length_append, wthb_take148_length, chksumField_length]
  rw [← List.append_assoc, List.drop_left' hlen]

theorem wthb_size_field (name : List Nat) (filesize mtime : Nat) :
    ((write_tar_header_bytes name filesize mtime).drop 124).take 12 =
      long_to_octal 12 filesize := by
  have h1 : (write_tar_header_bytes name filesize mtime).drop 124 =
      ((header_with_space_chksum name filesize mtime).take 148).drop 124
        ++ (chksumField (header_with_space_chksum name filesize mtime).sum
          ++ (header_with_space_chksum name filesize mtime).drop 156) := by
    rw [wthb_eq, List.drop_append_eq_append_drop, wthb_take148_length]
    norm_num
  rw [h1, List.take_append_eq_append_take, List.drop_take]
  have hlen : (((header_with_space_chksum name filesize mtime).drop 124).take (148 - 124)).length
      = 24 := by
    rw [List.length_take, List.length_drop, header_with_space_chksum_length]
    norm_num
  rw [hlen]
  norm_num [List.take_take]
  exact hwsc_size_field name filesize mtime

theorem wthb_drop257_take5 (name : List Nat) (filesize mtime : Nat) :
    ((write_tar_header_bytes name filesize mtime).drop 257).take 5 =
      [117, 115, 116, 97, 114] := by
  have h1 : (write_tar_header_bytes name filesize mtime).drop 257 =
      ((write_tar_header_bytes name filesize mtime).drop 156).drop 101 := by
    rw [List.drop_drop]
  rw [h1, wthb_drop156, hwsc_drop156, header_tail]
  show ((List.replicate 100 0 ++ ([117, 115, 116, 97, 114, 32, 32, 0]
      ++ (strncpyField [117, 115, 101, 114] 32 ++ (strncpyField [103, 114, 111, 117, 112] 32
        ++ List.replicate 183 0)))).drop 100).take 5 = _
  rw [List.drop_left' (List.length_replicate 100 0)]
  rfl

theorem wthb_valid (name : List Nat) (filesize mtime : Nat) :
    is_valid_tar_header (write_tar_header_bytes name filesize mtime) = true := by
  rw [is_valid_tar_header, wthb_drop257_take5]
  rfl

theorem wthb_not_empty (name : List Nat) (filesize mtime : Nat) :
    is_block_empty (write_tar_header_bytes name filesize mtime) = false := by
  rw [is_block_empty, List.all_eq_false]
  refine ⟨48, ?_, by decide⟩
  have h48 : 48 ∈ (write_tar_header_bytes name filesize mtime).drop 156 := by
    rw [wthb_drop156, hwsc_drop156, header_tail]
    exact List.mem_cons_self 48 _
  exact List.drop_subset _ _ h48

/-! The decoded size of a writer header, and the resulting skip. -/

theorem wthb_decoded_size (name : List Nat) (filesize mtime : Nat) (hv : filesize < 8 ^ 11) :
    octal_to_long (((write_tar_header_bytes name filesize mtime).drop 124).take 12) 12 =
      filesize := by
  rw [wthb_size_field, decode_long_to_octal12 filesize hv]

theorem wthb_skipOf (name : List Nat) (filesize mtime : Nat) (hv : filesize < 8 ^ 11) :
    skipOf (write_tar_header_bytes name filesize mtime) =
      ((filesize + 511) / 512) * 512 := by
  rw [skipOf, wthb_decoded_size name filesize mtime hv]

/-! ## Writer content loop -/

theorem wfcLoop_zero (fuel : Nat) (c : List Nat) : wfcLoop fuel c 0 = [] := by
  cases fuel <;> rfl

theorem wfcLoop_spec :
    ∀ (fuel : Nat) (c : List Nat), c.length ≤ 512 * fuel →
      wfcLoop fuel c c.length =
        c ++ List.replicate (((c.length + 511) / 512) * 512 - c.length) 0 := by
  intro fuel
  induction fuel with
  | zero =>
    intro c hc
    have : c.length = 0 := by omega
    rw [this, wfcLoop_zero]
    rw [List.length_eq_zero] at this
    subst this
    rfl
  | succ n ih =>
    intro c hc
    by_cases h0 : c.length = 0
    · rw [h0, wfcLoop_zero]
      rw [List.length_eq_zero] at h0
      subst h0
      rfl
    · rw [wfcLoop, if_neg h0]
      by_cases hle : c.length ≤ 512
      · have htake : c.take 512 = c := List.take_of_length_le hle
        rw [htake]
        have : c.length - c.length = 0 := by omega
        rw [this, wfcLoop_zero]
        have hpad : ((c.length + 511) / 512) * 512 - c.length = 512 - c.length := by omega
        rw [hpad, List.append_nil]
      · have hlen512 : (c.take 512).length = 512 := by
          rw [List.length_take]
          omega
        rw [hlen512]
        have hdroplen : (c.drop 512).length = c.length - 512 := by
          rw [List.length_drop]
        have hrec := ih (c.drop 512) (by omega)
        rw [hdroplen] at hrec
        rw [hrec]
        have hzero : (512 : Nat) - 512 = 0 := by omega
        rw [hzero]
        have hpad : ((c.length - 512 + 511) / 512) * 512 - (c.length - 512) =
            ((c.length + 511) / 512) * 512 - c.length := by omega
        rw [hpad]
        rw [List.replicate_zero, List.append_nil, ← List.append_assoc,
          List.take_append_drop]

theorem write_file_content_spec (c : List Nat) :
    write_file_content c =
      c ++ List.replicate (((c.length + 511) / 512) * 512 - c.length) 0 := by
  rw [write_file_content]
  exact wfcLoop_spec (c.length + 1) c (by omega)

theorem write_file_content_length (c : List Nat) :
    (write_file_content c).length = ((c.length + 511) / 512) * 512 := by
  rw [write_file_content_spec, List.length_append, List.length_replicate]
  omega

theorem write_file_bytes_length (fl : SrcFile) :
    (write_file_bytes fl).length = 512 + ((fl.content.length + 511) / 512) * 512 := by
  rw [write_file_bytes, List.length_append, write_tar_header_bytes_length,
    write_file_content_length]

theorem write_file_bytes_take512 (fl : SrcFile) :
    (write_file_bytes fl).take 512 =
      write_tar_header_bytes fl.name fl.content.length fl.mtime := by
  rw [write_file_bytes]
  exact List.take_left' (write_tar_header_bytes_length fl.name fl.content.length fl.mtime)

theorem write_file_bytes_drop512 (fl : SrcFile) :
    (write_file_bytes fl).drop 512 = write_file_content fl.content := by
  rw [write_file_bytes]
  exact List.drop_left' (write_tar_header_bytes_length fl.name fl.content.length fl.mtime)

theorem createBody_cons (fl : SrcFile) (rest : List SrcFile) :
    createBody (fl :: rest) = write_file_bytes fl ++ createBody rest := by
  rw [createBody, createBody, List.map_cons, List.flatten_cons]

theorem createBody_nil : createBody [] = [] := rfl

theorem createBody_length (files : List SrcFile) :
    (createBody files).length =
      (files.map (fun fl => 512 + ((fl.content.length + 511) / 512) * 512)).sum := by
  induction files with
  | nil => rfl
  | cons fl rest ih =>
    rw [createBody_cons, List.length_append, write_file_bytes_length, ih, List.map_cons,
      List.sum_cons]

/-! ## Append scan: termination, monotonicity, agreement -/

/-- A record assembled from `k` fresh bytes over an all-zero rest can only
carry the magic when at least 262 fresh bytes were read (offset 261 must
hold 0x72). -/
theorem valid_needs_262 (xs : List Nat) (m : Nat)
    (h : is_valid_tar_header (xs ++ List.replicate m 0) = true) : 262 ≤ xs.length := by
  rw [is_valid_tar_header] at h
  have heq := eq_of_beq h
  by_contra hlt
  push_neg at hlt
  have h4 : (((xs ++ List.replicate m 0).drop 257).take 5)[4]? = some 114 := by
    rw [heq]
    rfl
  rw [List.getElem?_take, if_pos (by norm_num), List.getElem?_drop,
    List.getElem?_append_right (by omega : xs.length ≤ 257 + 4),
    List.getElem?_replicate] at h4
  by_cases hc : 257 + 4 - xs.length < m
  · rw [if_pos hc] at h4
    exact absurd (Option.some.inj h4) (by norm_num)
  · rw [if_neg hc] at h4
    exact Option.noConfusion h4

/-- The wrapper fuel is never exhausted: whenever
`f.length + 1024 - pos < fuel`, the scan loop reaches a terminal case. -/
theorem fapLoop_isSome (f : List Nat) :
    ∀ (fuel pos : Nat), f.length + 1024 - pos < fuel → (fapLoop fuel f pos).isSome := by
  intro fuel
  induction fuel with
  | zero => intro pos h; omega
  | succ n ih =>
    intro pos h
    rw [fapLoop]
    by_cases h1 : f.length < pos + 512
    · rw [if_pos h1]; rfl
    · rw [if_neg h1]
      by_cases he : is_block_empty (blockAt f pos) = true
      · rw [if_pos he]
        by_cases h2 : f.length < pos + 1024
        · rw [if_pos h2]
          by_cases hv : is_valid_tar_header
              ((f.drop (pos + 512)).take 512
                ++ List.replicate (512 - (f.length - (pos + 512))) 0) = true
          · rw [if_pos hv]
            apply ih
            have h262 : 262 ≤ ((f.drop (pos + 512)).take 512).length :=
              valid_needs_262 _ _ hv
            rw [List.length_take, List.length_drop] at h262
            omega
          · rw [if_neg hv]; rfl
        · rw [if_neg h2]
          by_cases he2 : is_block_empty (blockAt f (pos + 512)) = true
          · rw [if_pos he2]; rfl
          · rw [if_neg he2]
            by_cases hv2 : is_valid_tar_header (blockAt f (pos + 512)) = true
            · rw [if_pos hv2]
              apply ih
              omega
            · rw [if_neg hv2]; rfl
      · rw [if_neg he]
        by_cases hv : is_valid_tar_header (blockAt f pos) = true
        · rw [if_pos hv]
          apply ih
          omega
        · rw [if_neg hv]; rfl

/-- Increasing the fuel can only preserve a delivered result. -/
theorem fapLoop_mono :
    ∀ (fuel fuel' : Nat) (f : List Nat) (pos : Nat) (r : Int), fuel ≤ fuel' →
      fapLoop fuel f pos = some r → fapLoop fuel' f pos = some r := by
  intro fuel
  induction fuel with
  | zero => intro fuel' f pos r _ hcontra; exact absurd hcontra (by rw [fapLoop]; simp)
  | succ n ih =>
    intro fuel' f pos r hle h
    obtain ⟨m, rfl⟩ : ∃ m, fuel' = m + 1 := ⟨fuel' - 1, by omega⟩
    rw [fapLoop] at h ⊢
    by_cases h1 : f.length < pos + 512
    · rw [if_pos h1] at h ⊢; exact h
    · rw [if_neg h1] at h ⊢
      by_cases he : is_block_empty (blockAt f pos) = true
      · rw [if_pos he] at h ⊢
        by_cases h2 : f.length < pos + 1024
        · rw [if_pos h2] at h ⊢
          by_cases hv : is_valid_tar_header
              ((f.drop (pos + 512)).take 512
                ++ List.replicate (512 - (f.length - (pos + 512))) 0) = true
          · rw [if_pos hv] at h ⊢
            exact ih m f _ r (by omega) h
          · rw [if_neg hv] at h ⊢; exact h
        · rw [if_neg h2] at h ⊢
          by_cases he2 : is_block_empty (blockAt f (pos + 512)) = true
          · rw [if_pos he2] at h ⊢; exact h
          · rw [if_neg he2] at h ⊢
            by_cases hv2 : is_valid_tar_header (blockAt f (pos + 512)) = true
            · rw [if_pos hv2] at h ⊢
              exact ih m f _ r (by omega) h
            · rw [if_neg hv2] at h ⊢; exact h
      · rw [if_neg he] at h ⊢
        by_cases hv : is_valid_tar_header (blockAt f pos) = true
        · rw [if_pos hv] at h ⊢
          exact ih m f _ r (by omega) h
        · rw [if_neg hv] at h ⊢; exact h

/-- Any fuel that delivers a scan result determines `find_append_position`. -/
theorem find_append_position_eq (f : List Nat) (fuel : Nat) (r : Int)
    (h : fapLoop fuel f 0 = some r) : find_append_position f = r := by
  have htot : (fapLoop (fapFuel f) f 0).isSome :=
    fapLoop_isSome f (fapFuel f) 0 (by rw [fapFuel]; omega)
  obtain ⟨s, hs⟩ := Option.isSome_iff_exists.mp htot
  have h1 : fapLoop (max fuel (fapFuel f)) f 0 = some r :=
    fapLoop_mono fuel _ f 0 r (le_max_left _ _) h
  have h2 : fapLoop (max fuel (fapFuel f)) f 0 = some s :=
    fapLoop_mono (fapFuel f) _ f 0 s (le_max_right _ _) hs
  rw [h1] at h2
  rw [find_append_position, hs, Option.getD_some, Option.some.inj h2]

/-- Every content skip computed by the scan is a multiple of 512. -/
theorem skipOf_mod512 (hdr : List Nat) : skipOf hdr % 512 = 0 := by
  rw [skipOf]
  exact Nat.mul_mod_left _ _

/-- When both the archive length and the scan position are 512-aligned,
every non-negative scan result is 512-aligned as well. -/
theorem fapLoop_mod512 (f : List Nat) (hf : f.length % 512 = 0) :
    ∀ (fuel pos : Nat) (r : Int), pos % 512 = 0 → fapLoop fuel f pos = some r →
      0 ≤ r → r % 512 = 0 := by
  intro fuel
  induction fuel with
  | zero => intro pos r _ hcontra; rw [fapLoop] at hcontra; exact absurd hcontra (by simp)
  | succ n ih =>
    intro pos r hpos h hr
    rw [fapLoop] at h
    by_cases h1 : f.length < pos + 512
    · rw [if_pos h1] at h
      have hmax : (max pos f.length) % 512 = 0 := by omega
      have := Option.some.inj h
      omega
    · rw [if_neg h1] at h
      by_cases he : is_block_empty (blockAt f pos) = true
      · rw [if_pos he] at h
        by_cases h2 : f.length < pos + 1024
        · rw [if_pos h2] at h
          by_cases hv : is_valid_tar_header
              ((f.drop (pos + 512)).take 512
                ++ List.replicate (512 - (f.length - (pos + 512))) 0) = true
          · rw [if_pos hv] at h
            refine ih _ r ?_ h hr
            have := skipOf_mod512
              ((f.drop (pos + 512)).take 512
                ++ List.replicate (512 - (f.length - (pos + 512))) 0)
            omega
          · rw [if_neg hv] at h
            have := Option.some.inj h
            omega
        · rw [if_neg h2] at h
          by_cases he2 : is_block_empty (blockAt f (pos + 512)) = true
          · rw [if_pos he2] at h
            have := Option.some.inj h
            omega
          · rw [if_neg he2] at h
            by_cases hv2 : is_valid_tar_header (blockAt f (pos + 512)) = true
            · rw [if_pos hv2] at h
              refine ih _ r ?_ h hr
              have := skipOf_mod512 (blockAt f (pos + 512))
              omega
            · rw [if_neg hv2] at h
              have := Option.some.inj h
              omega
      · rw [if_neg he] at h
        by_cases hv : is_valid_tar_header (blockAt f pos) = true
        · rw [if_pos hv] at h
          refine ih _ r ?_ h hr
          have := skipOf_mod512 (blockAt f pos)
          omega
        · rw [if_neg hv] at h
          have := Option.some.inj h
          omega

/-- Scanning a tail of the archive that holds exactly a sequence of
writer-produced entries and nothing else (no terminator): the scan walks
the entries and returns the archive length (the `ftell` after the short
read at EOF). -/
theorem fapLoop_createBody :
    ∀ (files : List SrcFile) (f : List Nat) (pos fuel : Nat),
      f.drop pos = createBody files → pos ≤ f.length →
      (∀ fl ∈ files, fl.content.length < 8 ^ 11) →
      files.length < fuel →
      fapLoop fuel f pos = some (f.length : Int) := by
  intro files
  induction files with
  | nil =>
    intro f pos fuel hdrop hpos _ hfuel
    obtain ⟨m, rfl⟩ : ∃ m, fuel = m + 1 := ⟨fuel - 1, by omega⟩
    have hlen : f.length - pos = 0 := by
      have hcongr := congrArg List.length hdrop
      rw [List.length_drop, createBody_nil] at hcongr
      simpa using hcongr
    rw [fapLoop, if_pos (by omega : f.length < pos + 512)]
    have : max pos f.length = f.length := by omega
    rw [this]
  | cons fl rest ih =>
    intro f pos fuel hdrop hpos hsz hfuel
    obtain ⟨m, rfl⟩ : ∃ m, fuel = m + 1 := ⟨fuel - 1, by omega⟩
    have hwfb : (write_file_bytes fl).length = 512 + ((fl.content.length + 511) / 512) * 512 :=
      write_file_bytes_length fl
    have hcongr := congrArg List.length hdrop
    rw [List.length_drop, createBody_cons, List.length_append, hwfb] at hcongr
    have hblock : blockAt f pos = write_tar_header_bytes fl.name fl.content.length fl.mtime := by
      rw [blockAt, hdrop, createBody_cons,
        List.take_append_of_le_length (by omega : 512 ≤ (write_file_bytes fl).length),
        write_file_bytes_take512]
    have hskip : skipOf (blockAt f pos) = ((fl.content.length + 511) / 512) * 512 := by
      rw [hblock]
      exact wthb_skipOf fl.name fl.content.length fl.mtime (hsz fl (by simp))
    rw [fapLoop, if_neg (by omega : ¬ f.length < pos + 512)]
    rw [if_neg (by rw [hblock, wthb_not_empty]; simp)]
    rw [if_pos (by rw [hblock]; exact wthb_valid fl.name fl.content.length fl.mtime)]
    rw [hskip]
    refine ih f (pos + 512 + ((fl.content.length + 511) / 512) * 512) m ?_ (by omega)
      (fun x hx => hsz x (by simp [hx])) (by simpa using hfuel)
    have hdd : f.drop (pos + (512 + ((fl.content.length + 511) / 512) * 512)) =
        (f.drop pos).drop (512 + ((fl.content.length + 511) / 512) * 512) := by
      rw [List.drop_drop]
    rw [← Nat.add_assoc] at hdd
    rw [hdd, hdrop, createBody_cons, List.drop_left' (by rw [hwfb])]

/-- One scan step per `Reaches` constructor: the scan from offset 0 factors
through every reachable loop-top state. -/
theorem reaches_fapLoop (f : List Nat) (k pos : Nat) (h : Reaches f k pos) :
    ∀ fuel, fapLoop (k + fuel) f 0 = fapLoop fuel f pos := by
  induction h with
  | start => intro fuel; rw [Nat.zero_add]
  | header k pos hr hfull hne hv ih =>
    intro fuel
    rw [show k + 1 + fuel = k + (fuel + 1) from by omega, ih (fuel + 1)]
    rw [fapLoop, if_neg (by omega : ¬ f.length < pos + 512),
      if_neg (by rw [hne]; simp), if_pos hv]
  | falseAlarm k pos hr hfull he hne2 hv2 ih =>
    intro fuel
    rw [show k + 1 + fuel = k + (fuel + 1) from by omega, ih (fuel + 1)]
    rw [fapLoop, if_neg (by omega : ¬ f.length < pos + 512), if_pos he,
      if_neg (by omega : ¬ f.length < pos + 1024),
      if_neg (by rw [hne2]; simp), if_pos hv2]
  | shortSecond k pos hr hfull h2 he hv ih =>
    intro fuel
    rw [show k + 1 + fuel = k + (fuel + 1) from by omega, ih (fuel + 1)]
    rw [fapLoop, if_neg (by omega : ¬ f.length < pos + 512), if_pos he, if_pos h2,
      if_pos hv]

/-! ## Reader lemmas -/

theorem copyLoop_zero (fuel : Nat) (f : List Nat) (pos : Nat) : copyLoop fuel f pos 0 = [] := by
  cases fuel <;> rfl

theorem copyLoop_take :
    ∀ (fuel : Nat) (f : List Nat) (pos r : Nat), r ≤ f.length - pos → r ≤ 512 * fuel →
      copyLoop fuel f pos r = (f.drop pos).take r := by
  intro fuel
  induction fuel with
  | zero =>
    intro f pos r _ hr
    have : r = 0 := by omega
    subst this
    rfl
  | succ n ih =>
    intro f pos r hbound hr
    by_cases h0 : r = 0
    · subst h0; rfl
    · rw [copyLoop, if_neg h0]
      by_cases hle : r ≤ 512
      · have hmin : min r 512 = r := by omega
        rw [hmin, List.take_take, Nat.sub_self, copyLoop_zero, List.append_nil,
          show r ⊓ 512 = r from by omega]
      · have hmin : min r 512 = 512 := by omega
        rw [hmin, List.take_take, show (512 : Nat) ⊓ 512 = 512 from by omega]
        rw [ih f (pos + 512) (r - 512) (by omega) (by omega)]
        have hdd : f.drop (pos + 512) = (f.drop pos).drop 512 := by
          rw [List.drop_drop]
        rw [hdd]
        conv_rhs => rw [show r = 512 + (r - 512) from by omega, List.take_add]

theorem copy_content_take (f : List Nat) (pos r : Nat) (h : r + pos ≤ f.length) :
    copy_content f pos r = (f.drop pos).take r :=
  copyLoop_take r f pos r (by omega) (by omega)

/-- Lemma: `takeWhile` walks through a first segment that satisfies the predicate
everywhere. -/
theorem takeWhile_append_all (p : Nat → Bool) :
    ∀ {l1 l2 : List Nat}, (∀ x ∈ l1, p x = true) →
      (l1 ++ l2).takeWhile p = l1 ++ l2.takeWhile p := by
  intro l1
  induction l1 with
  | nil => intro l2 _; simp
  | cons a t ih =>
    intro l2 h
    rw [List.cons_append, List.takeWhile_cons, h a (by simp),
      ih (fun x hx => h x (by simp [hx]))]
    rfl

theorem takeWhile_replicate_zero (k : Nat) :
    (List.replicate k 0).takeWhile (fun b => b != 0) = [] := by
  cases k with
  | zero => rfl
  | succ n => rw [List.replicate_succ, List.takeWhile_cons]; rfl

theorem map_printable_id :
    ∀ {l : List Nat}, (∀ b ∈ l, 32 ≤ b ∧ b ≤ 126) →
      l.map (fun b => if isprintByte b then b else 63) = l := by
  intro l
  induction l with
  | nil => intro _; rfl
  | cons a t ih =>
    intro h
    have ha : isprintByte a = true := by
      have := h a (by simp)
      simp [isprintByte]
      omega
    rw [List.map_cons, ha, if_pos rfl, ih (fun x hx => h x (by simp [hx]))]

/-- List/extract recover the stored name from a writer header: printable
names of at most 100 bytes survive unchanged. -/
theorem decode_name_wthb (name : List Nat) (filesize mtime : Nat)
    (hlen : name.length ≤ 100) (hpr : ∀ b ∈ name, 32 ≤ b ∧ b ≤ 126) :
    decode_name (write_tar_header_bytes name filesize mtime) = name := by
  rw [decode_name, wthb_take100, strncpyField, List.take_of_length_le hlen]
  rw [takeWhile_append_all (fun b => b != 0) (fun x hx => by
    have := hpr x hx
    simp only [bne_iff_ne, ne_eq]
    omega)]
  rw [takeWhile_replicate_zero, List.append_nil]
  exact map_printable_id hpr

theorem is_block_empty_replicate_zero : is_block_empty (List.replicate 512 0) = true := by
  rw [is_block_empty, List.all_eq_true]
  intro x hx
  rw [List.eq_of_mem_replicate hx]
  rfl

theorem terminator_take512 : terminator.take 512 = List.replicate 512 0 := by
  rw [terminator]
  exact List.take_left' (List.length_replicate 512 0)

theorem createBody_length_ge (files : List SrcFile) :
    512 * files.length ≤ (createBody files).length := by
  induction files with
  | nil => simp [createBody_nil]
  | cons fl rest ih =>
    rw [createBody_cons, List.length_append, write_file_bytes_length, List.length_cons]
    omega

/-- The `mode_list` loop over a writer-produced archive: it lists exactly
the (name, size) pairs of the files, in order, with no format error. -/
theorem listLoop_createBody :
    ∀ (files : List SrcFile) (f : List Nat) (pos fuel : Nat),
      f.drop pos = createBody files ++ terminator →
      (∀ fl ∈ files, GoodFile fl) →
      files.length < fuel →
      listLoop fuel f pos = (files.map (fun fl => (fl.name, fl.content.length)), false) := by
  intro files
  induction files with
  | nil =>
    intro f pos fuel hdrop _ hfuel
    obtain ⟨m, rfl⟩ : ∃ m, fuel = m + 1 := ⟨fuel - 1, by omega⟩
    have hcongr := congrArg List.length hdrop
    simp only [List.length_drop, createBody_nil, List.nil_append, terminator,
      List.length_append, List.length_replicate] at hcongr
    have hblock : blockAt f pos = List.replicate 512 0 := by
      rw [blockAt, hdrop, createBody_nil, List.nil_append]
      exact terminator_take512
    rw [listLoop, if_neg (by omega : ¬ f.length < pos + 512), if_pos (by
      rw [hblock]; exact is_block_empty_replicate_zero)]
    rfl
  | cons fl rest ih =>
    intro f pos fuel hdrop hgood hfuel
    obtain ⟨m, rfl⟩ : ∃ m, fuel = m + 1 := ⟨fuel - 1, by omega⟩
    obtain ⟨hn100, hnpr, hsz⟩ : GoodFile fl := hgood fl (by simp)
    have hwfb : (write_file_bytes fl).length = 512 + ((fl.content.length + 511) / 512) * 512 :=
      write_file_bytes_length fl
    rw [createBody_cons, List.append_assoc] at hdrop
    have hcongr := congrArg List.length hdrop
    rw [List.length_drop, List.length_append, hwfb] at hcongr
    have hblock : blockAt f pos = write_tar_header_bytes fl.name fl.content.length fl.mtime := by
      rw [blockAt, hdrop,
        List.take_append_of_le_length (by omega : 512 ≤ (write_file_bytes fl).length),
        write_file_bytes_take512]
    have hsize : octal_to_long (((blockAt f pos).drop 124).take 12) 12 = fl.content.length := by
      rw [hblock]
      exact wthb_decoded_size fl.name fl.content.length fl.mtime hsz
    rw [listLoop, if_neg (by omega : ¬ f.length < pos + 512),
      if_neg (by rw [hblock, wthb_not_empty]; simp),
      if_neg (by rw [hblock, wthb_valid fl.name fl.content.length fl.mtime]; simp)]
    rw [hsize]
    have hrec : listLoop m f (pos + 512 + ((fl.content.length + 511) / 512) * 512) =
        (rest.map (fun x => (x.name, x.content.length)), false) := by
      refine ih f _ m ?_ (fun x hx => hgood x (by simp [hx])) (by simpa using hfuel)
      have hdd : f.drop (pos + (512 + ((fl.content.length + 511) / 512) * 512)) =
          (f.drop pos).drop (512 + ((fl.content.length + 511) / 512) * 512) := by
        rw [List.drop_drop]
      rw [← Nat.add_assoc] at hdd
      rw [hdd, hdrop, List.drop_left' (by rw [hwfb])]
    rw [hrec, hblock, decode_name_wthb fl.name fl.content.length fl.mtime hn100 hnpr,
      List.map_cons]

/-- The `mode_extract` loop over a writer-produced archive: it writes
exactly the (name, content) pairs of the files, in order. -/
theorem extractLoop_createBody :
    ∀ (files : List SrcFile) (f : List Nat) (pos fuel : Nat),
      f.drop pos = createBody files ++ terminator →
      (∀ fl ∈ files, GoodFile fl) →
      files.length < fuel →
      extractLoop fuel f pos = (files.map (fun fl => (fl.name, fl.content)), false) := by
  intro files
  induction files with
  | nil =>
    intro f pos fuel hdrop _ hfuel
    obtain ⟨m, rfl⟩ : ∃ m, fuel = m + 1 := ⟨fuel - 1, by omega⟩
    have hcongr := congrArg List.length hdrop
    simp only [List.length_drop, createBody_nil, List.nil_append, terminator,
      List.length_append, List.length_replicate] at hcongr
    have hblock : blockAt f pos = List.replicate 512 0 := by
      rw [blockAt, hdrop, createBody_nil, List.nil_append]
      exact terminator_take512
    rw [extractLoop, if_neg (by omega : ¬ f.length < pos + 512), if_pos (by
      rw [hblock]; exact is_block_empty_replicate_zero)]
    rfl
  | cons fl rest ih =>
    intro f pos fuel hdrop hgood hfuel
    obtain ⟨m, rfl⟩ : ∃ m, fuel = m + 1 := ⟨fuel - 1, by omega⟩
    obtain ⟨hn100, hnpr, hsz⟩ : GoodFile fl := hgood fl (by simp)
    have hwfb : (write_file_bytes fl).length = 512 + ((fl.content.length + 511) / 512) * 512 :=
      write_file_bytes_length fl
    rw [createBody_cons, List.append_assoc] at hdrop
    have hcongr := congrArg List.length hdrop
    rw [List.length_drop, List.length_append, hwfb] at hcongr
    have hblock : blockAt f pos = write_tar_header_bytes fl.name fl.content.length fl.mtime := by
      rw [blockAt, hdrop,
        List.take_append_of_le_length (by omega : 512 ≤ (write_file_bytes fl).length),
        write_file_bytes_take512]
    have hsize : octal_to_long (((blockAt f pos).drop 124).take 12) 12 = fl.content.length := by
      rw [hblock]
      exact wthb_decoded_size fl.name fl.content.length fl.mtime hsz
    have hcopy : copy_content f (pos + 512) fl.content.length = fl.content := by
      rw [copy_content_take f (pos + 512) fl.content.length (by omega)]
      have hdd : f.drop (pos + 512) = (f.drop pos).drop 512 := by
        rw [List.drop_drop]
      rw [hdd, hdrop, List.drop_append_eq_append_drop, hwfb]
      rw [show (512 : Nat) - (512 + ((fl.content.length + 511) / 512) * 512) = 0 from by omega,
        List.drop_zero, write_file_bytes_drop512, write_file_content_spec, List.append_assoc]
      rw [List.take_append_of_le_length (by simp),
        List.take_of_length_le (by omega)]
    rw [extractLoop, if_neg (by omega : ¬ f.length < pos + 512),
      if_neg (by rw [hblock, wthb_not_empty]; simp),
      if_neg (by rw [hblock, wthb_valid fl.name fl.content.length fl.mtime]; simp)]
    rw [hsize]
    have hrec : extractLoop m f (pos + 512 + ((fl.content.length + 511) / 512) * 512) =
        (rest.map (fun x => (x.name, x.content)), false) := by
      refine ih f _ m ?_ (fun x hx => hgood x (by simp [hx])) (by simpa using hfuel)
      have hdd : f.drop (pos + (512 + ((fl.content.length + 511) / 512) * 512)) =
          (f.drop pos).drop (512 + ((fl.content.length + 511) / 512) * 512) := by
        rw [List.drop_drop]
      rw [← Nat.add_assoc] at hdd
      rw [hdd, hdrop, List.drop_left' (by rw [hwfb])]
    rw [hrec, hblock, hcopy, decode_name_wthb fl.name fl.content.length fl.mtime hn100 hnpr,
      List.map_cons]

theorem mode_create_bytes_eq (files : List SrcFile) :
    mode_create_bytes files = createBody files ++ terminator := rfl

/-! ## Checksum bound -/

theorem long_to_octal_byte (s v : Nat) : ∀ b ∈ long_to_octal s v, b ≤ 255 := by
  intro b hb
  rw [long_to_octal, List.mem_append] at hb
  rcases hb with hb | hb
  · have hb2 := List.take_subset _ _ hb
    rw [List.mem_append] at hb2
    rcases hb2 with hb2 | hb2
    · rw [List.eq_of_mem_replicate hb2]; norm_num
    · have := octalChars_mem v b hb2
      omega
  · rw [List.mem_singleton] at hb
    omega

theorem chksumField_byte (v : Nat) : ∀ b ∈ chksumField v, b ≤ 255 := by
  intro b hb
  rw [chksumField, List.mem_append] at hb
  rcases hb with hb | hb
  · have hb2 := List.take_subset _ _ hb
    rw [List.mem_append] at hb2
    rcases hb2 with hb2 | hb2
    · rw [List.eq_of_mem_replicate hb2]; norm_num
    · have := octalChars_mem v b hb2
      omega
  · rw [List.mem_cons, List.mem_singleton] at hb
    rcases hb with rfl | rfl <;> norm_num

theorem strncpyField_byte (s : List Nat) (n : Nat) (h : ∀ b ∈ s, b < 256) :
    ∀ b ∈ strncpyField s n, b ≤ 255 := by
  intro b hb
  rw [strncpyField, List.mem_append] at hb
  rcases hb with hb | hb
  · have := h b (List.take_subset _ _ hb)
    omega
  · rw [List.eq_of_mem_replicate hb]
    norm_num

theorem header_tail_byte : ∀ b ∈ header_tail, b ≤ 255 := by decide

theorem hwsc_byte (name : List Nat) (filesize mtime : Nat) (hname : ∀ b ∈ name, b < 256) :
    ∀ b ∈ header_with_space_chksum name filesize mtime, b ≤ 255 := by
  intro b hb
  rw [header_with_space_chksum, header_pre124] at hb
  simp only [List.append_assoc, List.mem_append] at hb
  rcases hb with hb | hb | hb | hb | hb | hb | hb | hb
  · exact strncpyField_byte name 100 hname b hb
  · exact long_to_octal_byte 8 420 b hb
  · exact long_to_octal_byte 8 1000 b hb
  · exact long_to_octal_byte 8 1000 b hb
  · exact long_to_octal_byte 12 filesize b hb
  · exact long_to_octal_byte 12 mtime b hb
  · rw [List.eq_of_mem_replicate hb]; norm_num
  · exact header_tail_byte b hb

theorem hwsc_sum_lt (name : List Nat) (filesize mtime : Nat) (hname : ∀ b ∈ name, b < 256) :
    (header_with_space_chksum name filesize mtime).sum < 8 ^ 6 := by
  have hle : (header_with_space_chksum name filesize mtime).sum ≤
      (header_with_space_chksum name filesize mtime).length • 255 :=
    List.sum_le_card_nsmul _ 255 (hwsc_byte name filesize mtime hname)
  rw [header_with_space_chksum_length, smul_eq_mul] at hle
  omega

theorem mode_create_bytes_length (files : List SrcFile) :
    (mode_create_bytes files).length =
      (files.map (fun fl => 512 + ((fl.content.length + 511) / 512) * 512)).sum + 1024 := by
  rw [mode_create_bytes_eq, List.length_append, createBody_length, terminator,
    List.length_append, List.length_replicate]

/-! # Claim theorems -/

/-- Claim C1: for every existing archive in which the append scan
encounters a non-empty 512-byte block whose bytes at offset 257 do not
equal "ustar" — either the block read at the top of a reachable loop
iteration, or the non-empty second block examined after an isolated zero
block — the append operation aborts with the corruption error (exit
status 1) before writing anything, leaving the destination archive's
contents and length unchanged. -/
theorem C1_corrupt_append_aborts (f : List Nat) (files : List SrcFile) (k pos : Nat)
    (hr : Reaches f k pos) (hfull : pos + 512 ≤ f.length)
    (hbad : (is_block_empty (blockAt f pos) = false
        ∧ is_valid_tar_header (blockAt f pos) = false)
      ∨ (is_block_empty (blockAt f pos) = true ∧ pos + 1024 ≤ f.length
          ∧ is_block_empty (blockAt f (pos + 512)) = false
          ∧ is_valid_tar_header (blockAt f (pos + 512)) = false)) :
    mode_create_append true f files = (1, f) := by
  have hloop : fapLoop 1 f pos = some (-1) := by
    rw [fapLoop]
    rcases hbad with ⟨hne, hnv⟩ | ⟨he, h2, hne2, hnv2⟩
    · rw [if_neg (by omega : ¬ f.length < pos + 512), if_neg (by rw [hne]; simp),
        if_neg (by rw [hnv]; simp)]
    · rw [if_neg (by omega : ¬ f.length < pos + 512), if_pos he,
        if_neg (by omega : ¬ f.length < pos + 1024), if_neg (by rw [hne2]; simp),
        if_neg (by rw [hnv2]; simp)]
  have h0 : fapLoop (k + 1) f 0 = some (-1) := by
    rw [reaches_fapLoop f k pos hr 1, hloop]
  have hfap : find_append_position f = -1 := find_append_position_eq f (k + 1) _ h0
  rw [mode_create_append, if_pos rfl, hfap, if_pos (by norm_num)]

theorem C1_corrupt_append_aborts_witness :
    (Reaches (List.replicate 512 65) 0 0 ∧ 0 + 512 ≤ (List.replicate 512 65).length
      ∧ is_block_empty (blockAt (List.replicate 512 65) 0) = false
      ∧ is_valid_tar_header (blockAt (List.replicate 512 65) 0) = false)
    ∧ mode_create_append true (List.replicate 512 65) [] = (1, List.replicate 512 65) :=
  ⟨⟨Reaches.start, by decide, by decide, by decide⟩,
    C1_corrupt_append_aborts (List.replicate 512 65) [] 0 0 Reaches.start (by decide)
      (Or.inl ⟨by decide, by decide⟩)⟩

/-- Claim C4: for every header produced by the writer, decoding the octal
chksum field (bytes 148..155) yields exactly the unsigned sum of all 512
header bytes computed with the 8-byte checksum field replaced by ASCII
spaces. -/
theorem C4_checksum_invariant (name : List Nat) (filesize mtime : Nat)
    (hname : ∀ b ∈ name, b < 256) :
    octal_to_long (((write_tar_header_bytes name filesize mtime).drop 148).take 8) 8 =
      ((write_tar_header_bytes name filesize mtime).take 148 ++ List.replicate 8 32
        ++ (write_tar_header_bytes name filesize mtime).drop 156).sum := by
  rw [wthb_chk_field, decode_chksumField _ (hwsc_sum_lt name filesize mtime hname)]
  rw [wthb_take148, wthb_drop156, hwsc_decomp]

theorem C4_checksum_invariant_witness :
    (∀ b ∈ [97], b < 256) ∧
      octal_to_long (((write_tar_header_bytes [97] 3 0).drop 148).take 8) 8 =
        ((write_tar_header_bytes [97] 3 0).take 148 ++ List.replicate 8 32
          ++ (write_tar_header_bytes [97] 3 0).drop 156).sum :=
  ⟨by decide, C4_checksum_invariant [97] 3 0 (by decide)⟩

/-- Claim C2: for any list of source files with arbitrary byte contents
(names of at most 100 printable bytes, sizes representable in the octal
size field), creating an archive and then extracting it reproduces, for
every file, the identical name and byte-identical contents, with no
format error. -/
theorem C2_round_trip (files : List SrcFile) (hgood : ∀ fl ∈ files, GoodFile fl) :
    mode_extract_run (mode_create_bytes files) =
      (files.map (fun fl => (fl.name, fl.content)), false) := by
  rw [mode_extract_run]
  refine extractLoop_createBody files _ 0 _ ?_ hgood ?_
  · rw [List.drop_zero, mode_create_bytes_eq]
  · have h1 := createBody_length_ge files
    have h2 : (mode_create_bytes files).length = (createBody files).length + 1024 := by
      rw [mode_create_bytes_eq, List.length_append, terminator, List.length_append,
        List.length_replicate]
    omega

theorem C2_round_trip_witness :
    (∀ fl ∈ [SrcFile.mk [97] [120, 121, 122] 0], GoodFile fl) ∧
      mode_extract_run (mode_create_bytes [SrcFile.mk [97] [120, 121, 122] 0]) =
        ([([97], [120, 121, 122])], false) :=
  ⟨by decide, C2_round_trip [SrcFile.mk [97] [120, 121, 122] 0] (by decide)⟩

/-- Claim C5: for every created archive, the total length is the sum over
all entries of 512 + ceil(size/512)*512 plus 1024; each entry is its
header followed by its content zero-padded to a 512-byte boundary, and
exactly two all-zero 512-byte blocks close the archive. -/
theorem C5_padding_invariant (files : List SrcFile) :
    (mode_create_bytes files).length =
      (files.map (fun fl => 512 + ((fl.content.length + 511) / 512) * 512)).sum + 1024 ∧
    mode_create_bytes files =
      (files.map (fun fl =>
        write_tar_header_bytes fl.name fl.content.length fl.mtime
          ++ (fl.content
            ++ List.replicate (((fl.content.length + 511) / 512) * 512 - fl.content.length)
              0))).flatten
        ++ (List.replicate 512 0 ++ List.replicate 512 0) := by
  constructor
  · exact mode_create_bytes_length files
  · rw [mode_create_bytes_eq, terminator, createBody]
    have hfun : ∀ fl : SrcFile,
        write_file_bytes fl =
          write_tar_header_bytes fl.name fl.content.length fl.mtime
            ++ (fl.content
              ++ List.replicate
                (((fl.content.length + 511) / 512) * 512 - fl.content.length) 0) := by
      intro fl
      rw [write_file_bytes, write_file_content_spec]
    rw [funext hfun]

/-- Claim C6, corrected: the claim predicts a 3072-byte archive, but the
writer emits 512 (header a) + 512 (one padded content block for the three
bytes of a) + 512 (header b, no content blocks for its 0 bytes) + 1024
(terminator) = 2560 bytes.  The listing is as the claim states. -/
theorem C6_example_cex :
    (mode_create_bytes [SrcFile.mk [97] [120, 121, 122] 0, SrcFile.mk [98] [] 0]).length
        = 2560 ∧ (2560 : Nat) ≠ 3072 := by
  constructor
  · rw [mode_create_bytes_length]
    simp only [List.map_cons, List.map_nil, List.sum_cons, List.sum_nil, List.length_cons,
      List.length_nil]
    norm_num
  · norm_num

/-- Claim C6 as amended: creating the archive from "a" (3 bytes "xyz")
and "b" (0 bytes) — whatever their modification times — yields 2560
bytes, and listing it prints a (3 bytes) then b (0 bytes), with no
error. -/
theorem C6_example_archive (ta tb : Nat) :
    (mode_create_bytes [SrcFile.mk [97] [120, 121, 122] ta, SrcFile.mk [98] [] tb]).length
        = 2560 ∧
      mode_list_run
          (mode_create_bytes [SrcFile.mk [97] [120, 121, 122] ta, SrcFile.mk [98] [] tb]) =
        ([([97], 3), ([98], 0)], false) := by
  have hlen :
      (mode_create_bytes [SrcFile.mk [97] [120, 121, 122] ta, SrcFile.mk [98] [] tb]).length
        = 2560 := by
    rw [mode_create_bytes_length]
    simp only [List.map_cons, List.map_nil, List.sum_cons, List.sum_nil, List.length_cons,
      List.length_nil]
    norm_num
  refine ⟨hlen, ?_⟩
  rw [mode_list_run]
  exact listLoop_createBody [SrcFile.mk [97] [120, 121, 122] ta, SrcFile.mk [98] [] tb] _ 0 _
    (by rw [List.drop_zero, mode_create_bytes_eq])
    (by
      intro fl hfl
      rw [List.mem_cons, List.mem_singleton] at hfl
      rcases hfl with rfl | rfl
      · refine ⟨by norm_num, ?_, by norm_num⟩
        intro b hb
        simp only [List.mem_cons, List.not_mem_nil, or_false, List.mem_singleton] at hb
        omega
      · refine ⟨by norm_num, ?_, by norm_num⟩
        intro b hb
        simp only [List.mem_cons, List.not_mem_nil, or_false, List.mem_singleton] at hb
        omega)
    (by rw [hlen]; norm_num)

/-- Claim C8: an archive holding valid writer entries but no terminator
(as left behind by an interrupted write): the append scan reaches the
short read at end of file, the end-of-file offset becomes the insertion
point, and appending succeeds there, preserving every previously written
byte unchanged in front of the new entries. -/
theorem C8_truncated_archive_recovery (files extra : List SrcFile)
    (hsz : ∀ fl ∈ files, fl.content.length < 8 ^ 11) :
    find_append_position (createBody files) = ((createBody files).length : Int) ∧
      mode_create_append true (createBody files) extra =
        (0, createBody files ++ (createBody extra ++ terminator)) := by
  have hfap : find_append_position (createBody files) = ((createBody files).length : Int) :=
    find_append_position_eq _ (files.length + 1) _
      (fapLoop_createBody files (createBody files) 0 (files.length + 1)
        (by rw [List.drop_zero]) (by omega) hsz (by omega))
  refine ⟨hfap, ?_⟩
  rw [mode_create_append, if_pos rfl, hfap,
    if_neg (by norm_num : ¬ ((createBody files).length : Int) < 0)]
  rw [overwriteAt, Int.toNat_ofNat, List.take_length, Nat.sub_self, List.replicate_zero,
    List.append_nil, List.drop_eq_nil_of_le (by rw [List.length_append]; omega),
    List.append_nil]

theorem C8_truncated_archive_recovery_witness :
    (∀ fl ∈ [SrcFile.mk [97] [120] 0], fl.content.length < 8 ^ 11) ∧
      (find_append_position (createBody [SrcFile.mk [97] [120] 0]) =
          ((createBody [SrcFile.mk [97] [120] 0]).length : Int) ∧
        mode_create_append true (createBody [SrcFile.mk [97] [120] 0]) [] =
          (0, createBody [SrcFile.mk [97] [120] 0] ++ (createBody [] ++ terminator))) :=
  ⟨by decide, C8_truncated_archive_recovery [SrcFile.mk [97] [120] 0] [] (by decide)⟩

/-- Claim C3, counterexample: the claim says that after a false alarm
(isolated zero block at z, non-empty block behind it) the scan proceeds
as if restarted at z, validating the header and skipping its content.
`find_append_position_restart` is that claimed behaviour; on `A3ex` it
walks the entry behind the isolated zero block and reports the clean
EOF insertion point 1536, while the code, which seeks the content skip
from the rewound offset z + 512 instead of z + 1024, lands inside the
entry's content and reports corruption (−1). -/
theorem C3_false_alarm_cex :
    find_append_position A3ex = -1 ∧ find_append_position_restart A3ex = 1536 ∧
      find_append_position A3ex ≠ find_append_position_restart A3ex := by
  refine ⟨by decide, by decide, ?_⟩
  intro h
  rw [show find_append_position A3ex = -1 from by decide,
    show find_append_position_restart A3ex = 1536 from by decide] at h
  exact absurd h (by decide)

/-- Claim C3 as amended: on a false alarm the scan rewinds exactly one
block (to z + 512), falls through to validating the non-empty block it
just read, and — if that block is valid — continues with the content skip
taken from the rewound offset z + 512, i.e. at z + 512 + skip, not at
z + 1024 + skip as a clean restart would. -/
theorem C3_false_alarm_resume (f : List Nat) (z fuel : Nat)
    (h2 : z + 1024 ≤ f.length)
    (he : is_block_empty (blockAt f z) = true)
    (hne : is_block_empty (blockAt f (z + 512)) = false) :
    fapLoop (fuel + 1) f z =
      (if is_valid_tar_header (blockAt f (z + 512)) then
        fapLoop fuel f (z + 512 + skipOf (blockAt f (z + 512)))
      else some (-1)) := by
  rw [fapLoop, if_neg (by omega : ¬ f.length < z + 512), if_pos he,
    if_neg (by omega : ¬ f.length < z + 1024), if_neg (by rw [hne]; simp)]

theorem C3_false_alarm_resume_witness :
    (0 + 1024 ≤ A3ex.length ∧ is_block_empty (blockAt A3ex 0) = true
      ∧ is_block_empty (blockAt A3ex (0 + 512)) = false) ∧
      fapLoop (1 + 1) A3ex 0 =
        (if is_valid_tar_header (blockAt A3ex (0 + 512)) then
          fapLoop 1 A3ex (0 + 512 + skipOf (blockAt A3ex (0 + 512)))
        else some (-1)) :=
  ⟨⟨by decide, by decide, by decide⟩,
    C3_false_alarm_resume A3ex 0 1 (by decide) (by decide) (by decide)⟩

/-- Claim C7, counterexample: on the bytes "1x2" the source decoder does
not stop at the non-octal byte 0x78 — it skips it and accumulates the
final digit as well, returning 10, while the decoder described by the
claim (`octal_decode_spec_stop`) stops there and returns 1. -/
theorem C7_decoder_cex :
    octal_to_long [49, 120, 50] 3 = 10 ∧ octal_decode_spec_stop [49, 120, 50] 3 = 1 ∧
      octal_to_long [49, 120, 50] 3 ≠ octal_decode_spec_stop [49, 120, 50] 3 := by
  decide

/-- Claim C7 as amended: `octal_to_long` walks all of the first `len`
bytes, accumulating value*8 + digit for bytes in the octal range and
skipping — not stopping at — every other byte (which is how trailing
padding bytes are tolerated); the older `octal_to_int32` behaves the same
except that it stops at the first NUL byte. -/
theorem C7_decoder_behaviour (str : List Nat) (len : Nat) :
    octal_to_long str len = (str.take len).foldl octalStep 0 ∧
      octal_to_int32 str len =
        ((str.take len).takeWhile (fun b => b != 0)).foldl octalStep32 0 :=
  ⟨octal_to_long_eq_foldl str len, octal_to_int32_eq_foldl str len⟩

/-- Claim C9, counterexample: on a single non-empty block with invalid
magic, `mode_list` reports the format error, yet the process exit status
is 0, not 1 — `mode_list` merely breaks out of its loop and `main`
returns 0. -/
theorem C9_exit_status_cex :
    (mode_list_run (List.replicate 512 65)).2 = true ∧
      (run_list (List.replicate 512 65)).1 = 0 := by
  refine ⟨?_, rfl⟩
  decide

/-- Claim C9 as amended: only the append scan turns detected corruption
into exit status 1; list and extract report the format error on stderr
but still exit 0 (exit 0 is therefore not only returned on success). -/
theorem C9_exit_statuses (f : List Nat) (files : List SrcFile)
    (hc : find_append_position f < 0) (_hl : (mode_list_run f).2 = true) :
    (mode_create_append true f files).1 = 1 ∧ (run_list f).1 = 0 ∧ (run_extract f).1 = 0 := by
  refine ⟨?_, rfl, rfl⟩
  rw [mode_create_append, if_pos rfl, if_pos hc]

theorem C9_exit_statuses_witness :
    (find_append_position (List.replicate 512 66) < 0
      ∧ (mode_list_run (List.replicate 512 66)).2 = true) ∧
      ((mode_create_append true (List.replicate 512 66) []).1 = 1
        ∧ (run_list (List.replicate 512 66)).1 = 0
        ∧ (run_extract (List.replicate 512 66)).1 = 0) :=
  ⟨⟨by decide, by decide⟩, C9_exit_statuses (List.replicate 512 66) [] (by decide) (by decide)⟩

/-- Claim C10, counterexample: on a 100-byte archive (not a multiple of
512) the scan's first read is short, so it succeeds and returns the
end-of-file offset 100 — a non-negative insertion point that is not a
multiple of 512. -/
theorem C10_alignment_cex :
    find_append_position (List.replicate 100 1) = 100 ∧ ¬ ((100 : Int) % 512 = 0) := by
  decide

/-- Claim C10 as amended: whenever the archive length is itself a
multiple of 512, every position the scan reads from or seeks to is
512-aligned, so a successful scan returns a 512-aligned insertion point;
for archives with a trailing partial block the returned EOF offset is the
raw file length, which need not be aligned. -/
theorem C10_alignment (f : List Nat) (r : Int) (hlen : f.length % 512 = 0)
    (hr : find_append_position f = r) (hnn : 0 ≤ r) : r % 512 = 0 := by
  have htot : (fapLoop (fapFuel f) f 0).isSome :=
    fapLoop_isSome f (fapFuel f) 0 (by rw [fapFuel]; omega)
  obtain ⟨s, hs⟩ := Option.isSome_iff_exists.mp htot
  have hfr : find_append_position f = s := by
    rw [find_append_position, hs, Option.getD_some]
  rw [hfr] at hr
  subst hr
  exact fapLoop_mod512 f hlen (fapFuel f) 0 s (by norm_num) hs hnn

theorem C10_alignment_witness :
    ((List.replicate 512 0 ++ List.replicate 512 0).length % 512 = 0
      ∧ find_append_position (List.replicate 512 0 ++ List.replicate 512 0) = 0
      ∧ (0 : Int) ≤ 0) ∧
      (0 : Int) % 512 = 0 :=
  ⟨⟨by decide, by decide, by decide⟩,
    C10_alignment (List.replicate 512 0 ++ List.replicate 512 0) 0 (by decide) (by decide)
      (by decide)⟩

end TinyTar
